import Mathlib

/-!
Verification of the MiniPaint canvas engine (src/mini_paint.py).

A shallow embedding of the parts of the program the claims are about:
the snapshot history stack (`save_state`, `undo`, `redo`), the pointer
to canvas coordinate mapping (`get_canvas_pos`), the freehand stroke
interpolation (`draw_line_smooth`), the shape geometry (triangle and
star) and the gesture state machine (`handle_drawing`), plus the save
filename construction (`save_canvas`).

Modelling conventions:
* The pygame `Surface` is an opaque type `α`; the pygame drawing
  primitives the code calls (`pygame.draw.circle`, `line`, `rect`,
  `polygon`, `Surface.fill`) are external library collaborators and are
  modelled as a record of opaque operations `DrawOps α`.  All arithmetic
  the repository itself performs (sizes, radii, vertices, step counts,
  history indexing) is embedded concretely.
* Python machine floats are idealised as exact arithmetic: `int(x)` on
  a nonnegative real is floor, in general truncation toward zero
  (`Int.tdiv` on exact rationals); `int(math.sqrt (n))` for the small
  integer operands arising from canvas coordinates equals `Nat.sqrt n`,
  embedded as the executable `isqrt`.  Python `//` is floor division
  (`Int.fdiv`; on `Int` with positive divisor this is Lean's `/`).
* `canvas.copy()` is value copying: lists of `α` hold snapshots.
-/

namespace MiniPaint

/-- Canvas width in pixels (constant `CANVAS_WIDTH`). -/
def CANVAS_WIDTH : Int := 800

/-- Canvas height in pixels (constant `CANVAS_HEIGHT`). -/
def CANVAS_HEIGHT : Int := 600

/-- Toolbar width in pixels (constant `TOOLBAR_WIDTH`). -/
def TOOLBAR_WIDTH : Int := 350

/-- Header height in pixels (constant `HEADER_HEIGHT`). -/
def HEADER_HEIGHT : Int := 80

/-- RGB colour, three 8-bit channels. -/
abbrev Color := Nat × Nat × Nat

/-- The background colour `WHITE`. -/
def WHITE : Color := (255, 255, 255)

/-- The initial drawing colour `BLUE`. -/
def BLUE : Color := (37, 99, 235)

/-- The `Tool` enumeration of mini_paint.py. -/
inductive Tool where
  | brush
  | pen
  | marker
  | eraser
  | line
  | rectangle
  | circle
  | triangle
  | star
  | heart
deriving DecidableEq

/-- The tools treated as freehand by `handle_drawing`
(`[Tool.BRUSH, Tool.PEN, Tool.MARKER, Tool.ERASER]`). -/
def Tool.isFreehand : Tool → Bool
  | .brush => true
  | .pen => true
  | .marker => true
  | .eraser => true
  | _ => false

/-- The mutable state of the `MiniPaint` object that the canvas engine
touches: canvas and preview surfaces, drawing-session fields, and the
undo/redo history.  The surface type is an opaque `α`. -/
structure MPState (α : Type) where
  canvas : α
  preview : α
  current_tool : Tool
  current_color : Color
  brush_size : Nat
  is_drawing : Bool
  last_pos : Option (Int × Int)
  start_pos : Option (Int × Int)
  show_preview : Bool
  history : List α
  history_index : Nat
  max_history : Nat
deriving DecidableEq

/-- The second half of `MiniPaint.save_state`: append a copy of the
canvas to the history, then either evict the oldest snapshot (when the
length exceeds `max_history`) or advance the cursor. -/
def push_snapshot {α : Type} (s : MPState α) : MPState α :=
  let h2 := s.history ++ [s.canvas]
  if s.max_history < h2.length then
    { s with history := h2.drop 1 }
  else
    { s with history := h2, history_index := s.history_index + 1 }

/-- `MiniPaint.save_state`: truncate the history after the cursor if the
cursor is not at the end, then append and evict or advance
(`push_snapshot`). -/
def save_state {α : Type} (s : MPState α) : MPState α :=
  push_snapshot
    (if s.history_index < s.history.length - 1
     then { s with history := s.history.take (s.history_index + 1) }
     else s)

/-- `MiniPaint.undo`: if the cursor is positive, decrement it and load
the snapshot at the new cursor into the canvas.  The list lookup is
total (`getD`); for every reachable state the index is in range, like
the Python list indexing. -/
def undo {α : Type} (s : MPState α) : MPState α :=
  if 0 < s.history_index then
    { s with history_index := s.history_index - 1,
             canvas := (s.history[s.history_index - 1]?).getD s.canvas }
  else s

/-- `MiniPaint.redo`: if the cursor is before the last snapshot,
increment it and load the snapshot at the new cursor into the canvas. -/
def redo {α : Type} (s : MPState α) : MPState α :=
  if s.history_index < s.history.length - 1 then
    { s with history_index := s.history_index + 1,
             canvas := (s.history[s.history_index + 1]?).getD s.canvas }
  else s

/-- `MiniPaint.get_canvas_pos`: map a window coordinate to a canvas
coordinate, or `none` when it falls outside `[0,W) × [0,H)`. -/
def get_canvas_pos (pos : Int × Int) : Option (Int × Int) :=
  let canvas_x := TOOLBAR_WIDTH + 20
  let canvas_y := HEADER_HEIGHT + 20
  let rx := pos.1 - canvas_x
  let ry := pos.2 - canvas_y
  if 0 ≤ rx ∧ rx < CANVAS_WIDTH ∧ 0 ≤ ry ∧ ry < CANVAS_HEIGHT then
    some (rx, ry)
  else
    none

/-- Executable integer square root: the largest `k ≤ n` with
`k * k ≤ n`.  Embeds Python's `int(math.sqrt (n))` for the integer
operands produced by canvas coordinates (where the machine double sqrt
is exact enough that truncation yields the integer square root). -/
def isqrt (n : Nat) : Nat :=
  ((List.range (n + 1)).filter (fun k => k * k ≤ n)).foldl max 0

/-- Round-to-nearest of the Euclidean distance `√n`, following the
claim's words (`round(distance)`): for a natural `n` with integer
square root `k`, the fractional part of `√n` is at least one half
exactly when `k² + k < n` (a tie `√n = k + 1/2` is impossible since
`4n = (2k+1)²` would make an odd square even). -/
def roundSqrt (n : Nat) : Nat :=
  let k := isqrt n
  if k * k + k < n then k + 1 else k

/-- The initial state built by `MiniPaint.__init__`: a blank canvas,
brush tool, blue colour, brush size 5, no gesture in flight, history
holding one snapshot of the blank canvas with cursor 0.  The source
fixes `max_history = 50`; the capacity is a parameter here so the
history claims can be stated for the capacity constant. -/
def initState {α : Type} (canvas0 preview0 : α) (cap : Nat) : MPState α :=
  { canvas := canvas0
    preview := preview0
    current_tool := Tool.brush
    current_color := BLUE
    brush_size := 5
    is_drawing := false
    last_pos := none
    start_pos := none
    show_preview := true
    history := [canvas0]
    history_index := 0
    max_history := cap }

/-- One commit: the canvas is mutated to content `c` by some drawing
operation and then `save_state` runs. -/
def commit {α : Type} (c : α) (s : MPState α) : MPState α :=
  save_state { s with canvas := c }

/-- A sequence of `n` commits with the canvas content of commit `i`
given by `f i`. -/
def commitSeq {α : Type} (f : Nat → α) : Nat → MPState α → MPState α
  | 0, s => s
  | n + 1, s => commit (f n) (commitSeq f n s)

/-- The pygame drawing primitives invoked by the engine, as opaque
operations on the surface type: filled circle, circle with outline
width, line, rect (x, y, w, h, outline width), polygon, the `draw_star`
and `draw_heart` helpers as invoked by `handle_drawing`, and
`preview_surface.fill((0, 0, 0, 0))`. -/
structure DrawOps (α : Type) where
  circle : α → Color → Int × Int → Nat → α
  circleW : α → Color → Int × Int → Nat → Nat → α
  line : α → Color → Int × Int → Int × Int → Nat → α
  rect : α → Color → Int → Int → Nat → Nat → Nat → α
  polygon : α → Color → List (Int × Int) → Nat → α
  star : α → Color → Int × Int → Nat → Nat → α
  heart : α → Color → Int × Int → Nat → Nat → α
  clearTransparent : α → α

/-- Squared Euclidean distance between two integer points, as a `Nat`. -/
def distSq (a b : Int × Int) : Nat :=
  ((b.1 - a.1) * (b.1 - a.1) + (b.2 - a.2) * (b.2 - a.2)).toNat

/-- The sequence of (center, radius) filled circles drawn by
`MiniPaint.draw_line_smooth`: one circle of radius `width // 2` at
`start` when the two samples coincide, otherwise circles at
`int(start + (i / steps) * (dx, dy))` for `i = 0 .. steps` with
`steps = int(distance)`.  `int()` of the exact intermediate value is
truncation toward zero, `Int.tdiv` of the common numerator. -/
def lineSmoothCircles (start stop : Int × Int) (width : Nat) : List ((Int × Int) × Nat) :=
  if start = stop then
    [(start, width / 2)]
  else
    let dx := stop.1 - start.1
    let dy := stop.2 - start.2
    if distSq start stop = 0 then
      []
    else
      let steps := isqrt (distSq start stop)
      let m : Int := (max steps 1 : Nat)
      (List.range (steps + 1)).map fun i =>
        ((Int.tdiv (start.1 * m + ((i : Nat) : Int) * dx) m,
          Int.tdiv (start.2 * m + ((i : Nat) : Int) * dy) m), width / 2)

/-- `MiniPaint.draw_line_smooth`: apply the interpolated filled circles
onto a surface in order. -/
def draw_line_smooth {α : Type} (ops : DrawOps α) (surface : α)
    (start stop : Int × Int) (color : Color) (width : Nat) : α :=
  (lineSmoothCircles start stop width).foldl
    (fun surf c => ops.circle surf color c.1 c.2) surface

/-- Per-tool effective width for freehand tools (`handle_drawing`):
pen `max 1 (size // 2)`, marker `int(size * 1.5)`, otherwise the
brush size. -/
def freehandSize (tool : Tool) (size : Nat) : Nat :=
  match tool with
  | .pen => max 1 (size / 2)
  | .marker => size * 3 / 2
  | _ => size

/-- The triangle vertices computed by `handle_drawing` /
`draw_preview`: apex at `start.x + width // 2` (Python floor division),
base at `start.y + height`. -/
def triangle_vertices (sp ep : Int × Int) : List (Int × Int) :=
  let w := ep.1 - sp.1
  let h := ep.2 - sp.2
  [(sp.1 + Int.fdiv w 2, sp.2), (sp.1, sp.2 + h), (sp.1 + w, sp.2 + h)]

/-- The triangle vertices as the claim words them, with the division by
two truncating toward zero. -/
def triangle_vertices_trunc (sp ep : Int × Int) : List (Int × Int) :=
  let w := ep.1 - sp.1
  let h := ep.2 - sp.2
  [(sp.1 + Int.tdiv w 2, sp.2), (sp.1, sp.2 + h), (sp.1 + w, sp.2 + h)]

/-- Truncation toward zero of a real number, Python's `int()`. -/
noncomputable def truncR (x : ℝ) : ℤ :=
  if 0 ≤ x then ⌊x⌋ else ⌈x⌉

/-- The ten vertices computed by `MiniPaint.draw_star`: for
`i = 0 .. 9`, `angle = i * π / 5`, radius `radius` when `i` is even and
`radius // 2` when odd, vertex at
`center + int(r * cos(angle - π/2)), int(r * sin(angle - π/2))`.
The machine trigonometry is idealised as exact real arithmetic. -/
noncomputable def star_points (center : Int × Int) (radius : Nat) : List (Int × Int) :=
  (List.range 10).map fun i =>
    let angle : ℝ := ((i : Nat) : ℝ) * Real.pi / 5
    let r : Nat := if i % 2 = 0 then radius else radius / 2
    (center.1 + truncR ((r : ℝ) * Real.cos (angle - Real.pi / 2)),
     center.2 + truncR ((r : ℝ) * Real.sin (angle - Real.pi / 2)))

/-- The star vertices as the spec words them: vertex `i` lies at angle
`i·π/5 − π/2` from the center, at the outer radius when `i` is even and
at the inner radius (outer/2) when odd. -/
noncomputable def star_points_spec (center : Int × Int) (radius : Nat) : List (Int × Int) :=
  (List.range 10).map fun i =>
    let θ : ℝ := ((i : Nat) : ℝ) * Real.pi / 5 - Real.pi / 2
    let r : Nat := if i % 2 = 0 then radius else radius / 2
    (center.1 + truncR ((r : ℝ) * Real.cos θ),
     center.2 + truncR ((r : ℝ) * Real.sin θ))

/-- `MiniPaint.draw_star`: compute the ten star vertices and draw the
polygon (the source's `width == 1` test selects the same polygon call
in both branches). -/
noncomputable def draw_star {α : Type} (ops : DrawOps α) (surface : α)
    (center : Int × Int) (radius : Nat) (color : Color) (width : Nat) : α :=
  ops.polygon surface color (star_points center radius) width

/-- `MiniPaint.draw_preview`: no-op unless a preview is shown and a
gesture start point exists; otherwise clear the preview overlay and
draw the current shape tool from `start_pos` to `end_pos` on it.
Freehand tools leave the cleared overlay. -/
def draw_preview {α : Type} (ops : DrawOps α) (s : MPState α)
    (end_pos : Int × Int) : MPState α :=
  if s.show_preview = false then s else
  match s.start_pos with
  | none => s
  | some sp =>
    let p := ops.clearTransparent s.preview
    match s.current_tool with
    | Tool.line =>
        { s with preview := ops.line p s.current_color sp end_pos s.brush_size }
    | Tool.rectangle =>
        { s with preview := (ops.rect p s.current_color
            (min sp.1 end_pos.1) (min sp.2 end_pos.2)
            (end_pos.1 - sp.1).natAbs (end_pos.2 - sp.2).natAbs s.brush_size) }
    | Tool.circle =>
        let radius := isqrt (distSq sp end_pos)
        if 0 < radius then
          { s with preview := ops.circleW p s.current_color sp radius s.brush_size }
        else { s with preview := p }
    | Tool.triangle =>
        { s with preview := (ops.polygon p s.current_color
            (triangle_vertices sp end_pos) s.brush_size) }
    | Tool.star =>
        let radius := (end_pos.1 - sp.1).natAbs / 2
        if 0 < radius then
          { s with preview := ops.star p s.current_color sp radius s.brush_size }
        else { s with preview := p }
    | Tool.heart =>
        let size := (end_pos.1 - sp.1).natAbs
        if 0 < size then
          { s with preview := ops.heart p s.current_color sp size s.brush_size }
        else { s with preview := p }
    | _ => { s with preview := p }

/-- The pointer-down branch of `handle_drawing`: mark the gesture
active, record start and last point, and for freehand tools draw one
dab at the point (eraser paints the background colour at radius
`brush_size // 2`, the others at the effective size halved). -/
def start_drawing {α : Type} (ops : DrawOps α) (s : MPState α)
    (cp : Int × Int) : MPState α :=
  let s1 := { s with is_drawing := true, start_pos := some cp, last_pos := some cp }
  if s1.current_tool.isFreehand = true then
    if s1.current_tool = Tool.eraser then
      { s1 with canvas := ops.circle s1.canvas WHITE cp (s1.brush_size / 2) }
    else
      let size := freehandSize s1.current_tool s1.brush_size
      { s1 with canvas := ops.circle s1.canvas s1.current_color cp (size / 2) }
  else s1

/-- The pointer-move branch of `handle_drawing`: freehand tools stroke
from the last point to the current one and update the last point;
shape tools redraw the preview. -/
def continue_drawing {α : Type} (ops : DrawOps α) (s : MPState α)
    (cp : Int × Int) : MPState α :=
  if s.current_tool.isFreehand = true then
    let s1 := match s.last_pos with
      | some lp =>
        if s.current_tool = Tool.eraser then
          { s with canvas := draw_line_smooth ops s.canvas lp cp WHITE s.brush_size }
        else
          { s with canvas := (draw_line_smooth ops s.canvas lp cp s.current_color
              (freehandSize s.current_tool s.brush_size)) }
      | none => s
    { s1 with last_pos := some cp }
  else
    draw_preview ops s cp

/-- The shape-drawing step of the pointer-up branch of
`handle_drawing`: for a shape tool with a start point, draw the
finished shape from the start point to `cp` onto the canvas; freehand
tools (and a missing start point) leave the canvas untouched. -/
def apply_shape {α : Type} (ops : DrawOps α) (s0 : MPState α)
    (cp : Int × Int) : MPState α :=
  match s0.current_tool, s0.start_pos with
    | Tool.line, some sp =>
        { s0 with canvas := ops.line s0.canvas s0.current_color sp cp s0.brush_size }
    | Tool.rectangle, some sp =>
        { s0 with canvas := (ops.rect s0.canvas s0.current_color
            (min sp.1 cp.1) (min sp.2 cp.2)
            (cp.1 - sp.1).natAbs (cp.2 - sp.2).natAbs s0.brush_size) }
    | Tool.circle, some sp =>
        let radius := isqrt (distSq sp cp)
        if 0 < radius then
          { s0 with canvas := ops.circleW s0.canvas s0.current_color sp radius s0.brush_size }
        else s0
    | Tool.triangle, some sp =>
        { s0 with canvas := (ops.polygon s0.canvas s0.current_color
            (triangle_vertices sp cp) s0.brush_size) }
    | Tool.star, some sp =>
        let radius := (cp.1 - sp.1).natAbs / 2
        if 0 < radius then
          { s0 with canvas := ops.star s0.canvas s0.current_color sp radius s0.brush_size }
        else s0
    | Tool.heart, some sp =>
        let size := (cp.1 - sp.1).natAbs
        if 0 < size then
          { s0 with canvas := ops.heart s0.canvas s0.current_color sp size s0.brush_size }
        else s0
    | _, _ => s0

/-- The pointer-up branch of `handle_drawing`: end the gesture, draw
the finished shape (`apply_shape`), clear the preview, commit via
`save_state`, and reset the gesture points. -/
def finish_drawing {α : Type} (ops : DrawOps α) (s : MPState α)
    (cp : Int × Int) : MPState α :=
  let s1 := apply_shape ops { s with is_drawing := false } cp
  let s2 := { s1 with preview := ops.clearTransparent s1.preview }
  let s3 := save_state s2
  { s3 with start_pos := none, last_pos := none }

/-- `MiniPaint.handle_drawing`: map the pointer position to the canvas
(returning unchanged when it falls outside), then dispatch on
pressed/active to the start, continue, or finish branch. -/
def handle_drawing {α : Type} (ops : DrawOps α) (s : MPState α)
    (pos : Int × Int) (pressed : Bool) : MPState α :=
  match get_canvas_pos pos with
  | none => s
  | some cp =>
    if pressed = true ∧ s.is_drawing = false then
      start_drawing ops s cp
    else if pressed = true ∧ s.is_drawing = true then
      continue_drawing ops s cp
    else if pressed = false ∧ s.is_drawing = true then
      finish_drawing ops s cp
    else s

/-- A timestamp as produced by `datetime.datetime.now()`: the calendar
fields used by the `"%Y%m%d_%H%M%S"` format.  Real timestamps have
`1000 ≤ year < 10000`, `month`, `day`, `hour`, `minute`, `second`
two-digit values. -/
structure Timestamp where
  year : Nat
  month : Nat
  day : Nat
  hour : Nat
  minute : Nat
  second : Nat
deriving DecidableEq

/-- The two zero-padded decimal digits of `n` (strftime `%m`, `%d`,
`%H`, `%M`, `%S`). -/
def digit2 (n : Nat) : List Char :=
  [Nat.digitChar (n / 10 % 10), Nat.digitChar (n % 10)]

/-- The four zero-padded decimal digits of `n` (strftime `%Y` for
calendar years). -/
def digit4 (n : Nat) : List Char :=
  [Nat.digitChar (n / 1000 % 10), Nat.digitChar (n / 100 % 10),
   Nat.digitChar (n / 10 % 10), Nat.digitChar (n % 10)]

/-- The timestamp string `strftime("%Y%m%d_%H%M%S")` of
`MiniPaint.save_canvas`, as a character list. -/
def timestamp_chars (t : Timestamp) : List Char :=
  digit4 t.year ++ digit2 t.month ++ digit2 t.day ++ ['_'] ++
  digit2 t.hour ++ digit2 t.minute ++ digit2 t.second

/-- The base filename `save_canvas` produces inside the output
directory: `f"mini_paint_masterpiece_{timestamp}.png"`. -/
def save_basename (t : Timestamp) : List Char :=
  ("mini_paint_masterpiece_").toList ++ timestamp_chars t ++ (".png").toList

/-- The full path `save_canvas` writes:
`f"saves/mini_paint_masterpiece_{timestamp}.png"`. -/
def save_path (t : Timestamp) : List Char :=
  ("saves/").toList ++ save_basename t

/-- The filename pattern as the claim words it:
`mini_paint_masterpiece_<YYYYMMDDHHMMSS>.png`, a fourteen-digit
timestamp between the fixed stem and the `.png` suffix. -/
def ClaimFilePattern (f : List Char) : Prop :=
  ∃ ds : List Char, ds.length = 14 ∧ (∀ c ∈ ds, c.isDigit = true) ∧
    f = ("mini_paint_masterpiece_").toList ++ ds ++ (".png").toList

/-- The filename pattern the code actually produces:
`mini_paint_masterpiece_<YYYYMMDD>_<HHMMSS>.png`, eight date digits, an
underscore, and six time digits. -/
def CodeFilePattern (f : List Char) : Prop :=
  ∃ d8 d6 : List Char, d8.length = 8 ∧ d6.length = 6 ∧
    (∀ c ∈ d8, c.isDigit = true) ∧ (∀ c ∈ d6, c.isDigit = true) ∧
    f = ("mini_paint_masterpiece_").toList ++ d8 ++ ['_'] ++ d6 ++ (".png").toList

/-- Concrete drawing operations on a counter surface, used to evaluate
the state machine on concrete inputs. -/
def sampleOps : DrawOps Nat where
  circle := fun s _ _ _ => s + 1
  circleW := fun s _ _ _ _ => s + 1
  line := fun s _ _ _ _ => s + 1
  rect := fun s _ _ _ _ _ _ => s + 1
  polygon := fun s _ _ _ => s + 1
  star := fun s _ _ _ _ => s + 1
  heart := fun s _ _ _ _ => s + 1
  clearTransparent := fun s => s

/-- The freshly initialised state over the counter surface. -/
def idleState : MPState Nat := initState 0 0 50

/-- A state with a brush gesture in flight, starting at the canvas
origin. -/
def drawingState : MPState Nat :=
  { idleState with is_drawing := true, start_pos := some (0, 0), last_pos := some (0, 0) }

/-- A state with a star-tool gesture in flight. -/
def starState : MPState Nat := { drawingState with current_tool := Tool.star }

/-- A state with a triangle-tool gesture in flight. -/
def triangleState : MPState Nat := { drawingState with current_tool := Tool.triangle }

/-! ## History stack lemmas -/

lemma save_state_canvas {α : Type} (s : MPState α) :
    (save_state s).canvas = s.canvas := by
  unfold save_state push_snapshot
  split <;> dsimp only <;> split <;> rfl

lemma save_state_max_history {α : Type} (s : MPState α) :
    (save_state s).max_history = s.max_history := by
  unfold save_state push_snapshot
  split <;> dsimp only <;> split <;> rfl

lemma save_state_is_drawing {α : Type} (s : MPState α) :
    (save_state s).is_drawing = s.is_drawing := by
  unfold save_state push_snapshot
  split <;> dsimp only <;> split <;> rfl

lemma save_state_start_pos {α : Type} (s : MPState α) :
    (save_state s).start_pos = s.start_pos := by
  unfold save_state push_snapshot
  split <;> dsimp only <;> split <;> rfl

lemma save_state_preview {α : Type} (s : MPState α) :
    (save_state s).preview = s.preview := by
  unfold save_state push_snapshot
  split <;> dsimp only <;> split <;> rfl

lemma push_snapshot_post {α : Type} (s : MPState α)
    (h : s.history_index + 1 = s.history.length) :
    (push_snapshot s).history_index + 1 = (push_snapshot s).history.length ∧
    (push_snapshot s).history.length =
      (if s.max_history < s.history.length + 1
       then s.history.length else s.history.length + 1) ∧
    (push_snapshot s).history[(push_snapshot s).history_index]? = some s.canvas := by
  unfold push_snapshot
  by_cases hc : s.max_history < (s.history ++ [s.canvas]).length
  · rw [if_pos hc]
    have hlen : s.history.length ≥ 1 := by omega
    refine ⟨?_, ?_, ?_⟩
    · simp; omega
    · simp only [List.length_append, List.length_cons, List.length_nil] at hc
      rw [if_pos (by omega)]
      simp
    · dsimp only
      rw [List.drop_append_of_le_length (by omega)]
      rw [List.getElem?_append_right (by simp; omega)]
      have hix : s.history_index - (s.history.length - 1) = 0 := by omega
      simp [hix]
  · rw [if_neg hc]
    refine ⟨?_, ?_, ?_⟩
    · simp; omega
    · simp only [List.length_append, List.length_cons, List.length_nil] at hc
      rw [if_neg (by omega)]
      simp
    · dsimp only
      rw [List.getElem?_append_right (by omega)]
      simp [h]

lemma save_state_post {α : Type} (s : MPState α)
    (h : s.history_index < s.history.length) :
    (save_state s).history_index + 1 = (save_state s).history.length ∧
    (save_state s).history[(save_state s).history_index]? = some s.canvas := by
  unfold save_state
  by_cases h1 : s.history_index < s.history.length - 1
  · rw [if_pos h1]
    have := push_snapshot_post (α := α)
      { s with history := s.history.take (s.history_index + 1) }
      (by simp [List.length_take]; omega)
    exact ⟨this.1, this.2.2⟩
  · rw [if_neg h1]
    have := push_snapshot_post s (by omega)
    exact ⟨this.1, this.2.2⟩

lemma save_state_top_length {α : Type} (s : MPState α)
    (h : s.history_index + 1 = s.history.length) :
    (save_state s).history.length =
      (if s.max_history < s.history.length + 1
       then s.history.length else s.history.length + 1) := by
  unfold save_state
  rw [if_neg (by omega)]
  exact (push_snapshot_post s h).2.1

lemma undo_fields {α : Type} (s : MPState α) :
    (undo s).history = s.history ∧ (undo s).max_history = s.max_history ∧
    (undo s).history_index ≤ s.history_index := by
  unfold undo
  split <;> simp

lemma redo_of_at_top {α : Type} (s : MPState α)
    (h : s.history_index + 1 = s.history.length) : redo s = s := by
  unfold redo
  rw [if_neg (by omega)]

lemma commitSeq_inv {α : Type} (canvas0 preview0 : α) (cap : Nat)
    (f : Nat → α) (hcap : 1 ≤ cap) (n : Nat) :
    (commitSeq f n (initState canvas0 preview0 cap)).history.length = min (n + 1) cap ∧
    (commitSeq f n (initState canvas0 preview0 cap)).history_index + 1 =
      (commitSeq f n (initState canvas0 preview0 cap)).history.length ∧
    (commitSeq f n (initState canvas0 preview0 cap)).history[
      (commitSeq f n (initState canvas0 preview0 cap)).history_index]? =
      some (commitSeq f n (initState canvas0 preview0 cap)).canvas ∧
    (commitSeq f n (initState canvas0 preview0 cap)).max_history = cap := by
  induction n with
  | zero =>
    refine ⟨?_, rfl, rfl, rfl⟩
    simp [commitSeq, initState]
    omega
  | succ n ih =>
    obtain ⟨hlen, hidx, _, hmax⟩ := ih
    set s := commitSeq f n (initState canvas0 preview0 cap) with hs
    have hstep : commitSeq f (n + 1) (initState canvas0 preview0 cap) =
        save_state { s with canvas := f n } := rfl
    set s' : MPState α := { s with canvas := f n } with hs'
    have hidx' : s'.history_index + 1 = s'.history.length := hidx
    have hpost := save_state_post s' (by omega)
    have hlen' := save_state_top_length s' hidx'
    have hcv := save_state_canvas s'
    have hmax' := save_state_max_history s'
    rw [hstep]
    refine ⟨?_, hpost.1, ?_, ?_⟩
    · rw [hlen']
      have : s'.history.length = min (n + 1) cap := hlen
      have : s'.max_history = cap := hmax
      split <;> omega
    · rw [hpost.2, hcv]
    · rw [hmax']; exact hmax

/-- C1: for every sequence of N commits (`save_state` calls) starting
from the initial state with capacity C = `max_history` (a positive
constant, 50 in the source), the history length equals `min (N+1) C`,
and after the commits the cursor sits at the last index and the
snapshot at the cursor equals the just-committed canvas buffer — in
both the eviction and the non-eviction branch of the commit. -/
theorem history_commit_bounds {α : Type} (canvas0 preview0 : α) (cap : Nat)
    (f : Nat → α) (n : Nat) (hcap : 1 ≤ cap) :
    (commitSeq f n (initState canvas0 preview0 cap)).history.length = min (n + 1) cap ∧
    (commitSeq f n (initState canvas0 preview0 cap)).history_index + 1 =
      (commitSeq f n (initState canvas0 preview0 cap)).history.length ∧
    (commitSeq f n (initState canvas0 preview0 cap)).history[
      (commitSeq f n (initState canvas0 preview0 cap)).history_index]? =
      some (commitSeq f n (initState canvas0 preview0 cap)).canvas := by
  obtain ⟨h1, h2, h3, _⟩ := commitSeq_inv canvas0 preview0 cap f hcap n
  exact ⟨h1, h2, h3⟩

/-- Witness for C1 at capacity 2 and three commits: the history has
evicted down to two snapshots and the cursor tracks the last one. -/
theorem history_commit_bounds_witness :
    (commitSeq (fun i => i + 1) 3 (initState 0 0 2)).history.length = min 4 2 ∧
    (commitSeq (fun i => i + 1) 3 (initState 0 0 2)).history_index + 1 =
      (commitSeq (fun i => i + 1) 3 (initState 0 0 2)).history.length ∧
    (commitSeq (fun i => i + 1) 3 (initState 0 0 2)).history[
      (commitSeq (fun i => i + 1) 3 (initState 0 0 2)).history_index]? =
      some (commitSeq (fun i => i + 1) 3 (initState 0 0 2)).canvas :=
  history_commit_bounds 0 0 2 (fun i => i + 1) 3 (by decide)

/-- C2: immediately after a commit (`save_state`), `undo` followed by
`redo` restores the canvas buffer to its content right after the
commit, for every state whose cursor is in range. -/
theorem undo_redo_roundtrip {α : Type} (s : MPState α)
    (h : s.history_index < s.history.length) :
    (redo (undo (save_state s))).canvas = (save_state s).canvas := by
  obtain ⟨h1, h2⟩ := save_state_post s h
  have hcv := save_state_canvas s
  set t := save_state s with ht
  by_cases h0 : 0 < t.history_index
  · have hu : undo t = { t with history_index := t.history_index - 1, canvas := (t.history[t.history_index - 1]?).getD t.canvas } := by
      unfold undo
      rw [if_pos h0]
    rw [hu]
    unfold redo
    dsimp only
    rw [if_pos (by omega)]
    dsimp only
    have hi : t.history_index - 1 + 1 = t.history_index := by omega
    rw [hi, h2]
    simp
    exact hcv.symm

  · have hu : undo t = t := by
      unfold undo
      rw [if_neg h0]
    rw [hu, redo_of_at_top t h1]

/-- Witness for C2 on the initial state. -/
theorem undo_redo_roundtrip_witness :
    idleState.history_index < idleState.history.length ∧
    (redo (undo (save_state idleState))).canvas = (save_state idleState).canvas :=
  ⟨by decide, undo_redo_roundtrip idleState (by decide)⟩

/-- C3: after at least one `undo` followed by a new commit
(`save_state`), a subsequent `redo` is a no-op: the canvas, the history
list, and the cursor are all unchanged by the redo (full state
equality). -/
theorem redo_noop_after_branch_commit {α : Type} (s : MPState α) (k : Nat)
    (h : s.history_index < s.history.length) :
    redo (save_state (undo^[k + 1] s)) = save_state (undo^[k + 1] s) := by
  have hinv : ∀ m, (undo^[m] s).history_index < (undo^[m] s).history.length := by
    intro m
    induction m with
    | zero => exact h
    | succ m ih =>
      rw [Function.iterate_succ_apply']
      have hf := undo_fields (undo^[m] s)
      rw [hf.1]
      exact lt_of_le_of_lt hf.2.2 ih
  exact redo_of_at_top _ (save_state_post (undo^[k + 1] s) (hinv (k + 1))).1

/-- Witness for C3: one undo then a commit on the initial state, and
the redo leaves the state untouched. -/
theorem redo_noop_after_branch_commit_witness :
    redo (save_state (undo^[1] idleState)) = save_state (undo^[1] idleState) :=
  redo_noop_after_branch_commit idleState 0 (by decide)

/-- C8: `undo` with the cursor at the oldest snapshot and `redo` with
the cursor at the newest snapshot are no-ops: the whole state is
unchanged and no error is raised (both operations are total). -/
theorem undo_redo_boundary_noop {α : Type} (s : MPState α) :
    (s.history_index = 0 → undo s = s) ∧
    (s.history_index = s.history.length - 1 → redo s = s) := by
  constructor
  · intro h0
    unfold undo
    rw [if_neg (by omega)]
  · intro hl
    unfold redo
    rw [if_neg (by omega)]

/-- Witness for C8 on the initial state, whose cursor is both at the
oldest and at the newest snapshot. -/
theorem undo_redo_boundary_noop_witness :
    idleState.history_index = 0 ∧ undo idleState = idleState ∧
    redo idleState = idleState :=
  ⟨rfl, (undo_redo_boundary_noop idleState).1 rfl,
    (undo_redo_boundary_noop idleState).2 (by decide)⟩

/-! ## Gesture state machine lemmas -/

lemma apply_shape_fields {α : Type} (ops : DrawOps α) (s0 : MPState α)
    (cp : Int × Int) :
    (apply_shape ops s0 cp).history = s0.history ∧
    (apply_shape ops s0 cp).history_index = s0.history_index ∧
    (apply_shape ops s0 cp).is_drawing = s0.is_drawing ∧
    (apply_shape ops s0 cp).start_pos = s0.start_pos ∧
    (apply_shape ops s0 cp).last_pos = s0.last_pos ∧
    (apply_shape ops s0 cp).preview = s0.preview ∧
    (apply_shape ops s0 cp).max_history = s0.max_history := by
  unfold apply_shape
  split <;> (try dsimp only) <;>
    (first
      | exact ⟨rfl, rfl, rfl, rfl, rfl, rfl, rfl⟩
      | (split <;> exact ⟨rfl, rfl, rfl, rfl, rfl, rfl, rfl⟩))

lemma draw_preview_fields {α : Type} (ops : DrawOps α) (s : MPState α)
    (p : Int × Int) :
    (draw_preview ops s p).canvas = s.canvas ∧
    (draw_preview ops s p).is_drawing = s.is_drawing ∧
    (draw_preview ops s p).start_pos = s.start_pos ∧
    (draw_preview ops s p).last_pos = s.last_pos ∧
    (draw_preview ops s p).history = s.history ∧
    (draw_preview ops s p).history_index = s.history_index := by
  unfold draw_preview
  split
  · exact ⟨rfl, rfl, rfl, rfl, rfl, rfl⟩
  · split
    · exact ⟨rfl, rfl, rfl, rfl, rfl, rfl⟩
    · split <;> (try dsimp only) <;>
        (first
          | exact ⟨rfl, rfl, rfl, rfl, rfl, rfl⟩
          | (split <;> exact ⟨rfl, rfl, rfl, rfl, rfl, rfl⟩))

lemma continue_drawing_gesture {α : Type} (ops : DrawOps α) (s : MPState α)
    (cp : Int × Int) :
    (continue_drawing ops s cp).is_drawing = s.is_drawing := by
  unfold continue_drawing
  split
  · dsimp only
    split <;> (try split) <;> rfl
  · exact (draw_preview_fields ops s cp).2.1

lemma finish_drawing_state {α : Type} (ops : DrawOps α) (s : MPState α)
    (cp : Int × Int) :
    (finish_drawing ops s cp).is_drawing = false ∧
    (finish_drawing ops s cp).start_pos = none ∧
    (finish_drawing ops s cp).last_pos = none := by
  have hf := apply_shape_fields ops { s with is_drawing := false } cp
  unfold finish_drawing
  dsimp only
  refine ⟨?_, rfl, rfl⟩
  rw [save_state_is_drawing]
  dsimp only
  rw [hf.2.2.1]

lemma finish_drawing_canvas {α : Type} (ops : DrawOps α) (s : MPState α)
    (cp : Int × Int) :
    (finish_drawing ops s cp).canvas =
      (apply_shape ops { s with is_drawing := false } cp).canvas := by
  unfold finish_drawing
  dsimp only
  rw [save_state_canvas]

lemma finish_drawing_commit {α : Type} (ops : DrawOps α) (s : MPState α)
    (cp : Int × Int) (h : s.history_index < s.history.length) :
    (finish_drawing ops s cp).history_index + 1 =
      (finish_drawing ops s cp).history.length ∧
    (finish_drawing ops s cp).history[
      (finish_drawing ops s cp).history_index]? =
      some (finish_drawing ops s cp).canvas := by
  have hf := apply_shape_fields ops { s with is_drawing := false } cp
  unfold finish_drawing
  dsimp only
  set s1 := apply_shape ops { s with is_drawing := false } cp with hs1
  set s2 : MPState α := { s1 with preview := ops.clearTransparent s1.preview } with hs2
  have h2 : s2.history_index < s2.history.length := by
    have e1 : s2.history = s.history := by rw [hs2]; exact hf.1
    have e2 : s2.history_index = s.history_index := by rw [hs2]; exact hf.2.1
    rw [e1, e2]
    exact h
  have hpost := save_state_post s2 h2
  have hscv := save_state_canvas s2
  exact ⟨hpost.1, hpost.2.trans (by rw [hscv])⟩

/-- C7: a pointer sample whose position maps outside the canvas bounds
is a complete no-op for the gesture state machine: a pointer-down there
never starts a gesture and a pointer-move there never alters the
drawing state, whatever the current state. -/
theorem out_of_bounds_pointer_noop {α : Type} (ops : DrawOps α)
    (s : MPState α) (pos : Int × Int) (pressed : Bool)
    (h : get_canvas_pos pos = none) :
    handle_drawing ops s pos pressed = s := by
  unfold handle_drawing
  rw [h]

/-- Witness for C7: a pointer-down over the toolbar area leaves the
idle state untouched. -/
theorem out_of_bounds_pointer_noop_witness :
    get_canvas_pos (0, 0) = none ∧
    handle_drawing sampleOps idleState (0, 0) true = idleState :=
  ⟨by decide, out_of_bounds_pointer_noop sampleOps idleState (0, 0) true (by decide)⟩

/-- C10: while a gesture is active, a pointer-release outside the
canvas bounds is a complete no-op (the gesture stays active, nothing is
committed); a pointer-release inside the bounds ends the gesture,
resets the gesture points and commits a snapshot of the final canvas
(the cursor then addresses that snapshot); and a pressed sample never
ends the gesture — so the gesture is finalized exactly at the first
in-bounds released sample. -/
theorem release_outside_bounds_deferred {α : Type} (ops : DrawOps α)
    (s : MPState α) (hd : s.is_drawing = true) :
    (∀ pos, get_canvas_pos pos = none → handle_drawing ops s pos false = s) ∧
    (∀ pos cp, get_canvas_pos pos = some cp →
      (handle_drawing ops s pos false).is_drawing = false ∧
      (handle_drawing ops s pos false).start_pos = none ∧
      (handle_drawing ops s pos false).last_pos = none ∧
      (s.history_index < s.history.length →
        (handle_drawing ops s pos false).history_index + 1 =
          (handle_drawing ops s pos false).history.length ∧
        (handle_drawing ops s pos false).history[
          (handle_drawing ops s pos false).history_index]? =
          some (handle_drawing ops s pos false).canvas)) ∧
    (∀ pos, (handle_drawing ops s pos true).is_drawing = true) := by
  refine ⟨?_, ?_, ?_⟩
  · intro pos h
    unfold handle_drawing
    rw [h]
  · intro pos cp h
    have hh : handle_drawing ops s pos false = finish_drawing ops s cp := by
      unfold handle_drawing
      rw [h]
      dsimp only
      rw [if_neg (by simp), if_neg (by simp), if_pos ⟨rfl, hd⟩]
    rw [hh]
    have hst := finish_drawing_state ops s cp
    exact ⟨hst.1, hst.2.1, hst.2.2, fun hlt => finish_drawing_commit ops s cp hlt⟩
  · intro pos
    unfold handle_drawing
    cases hg : get_canvas_pos pos with
    | none => exact hd
    | some cp =>
      dsimp only
      rw [if_neg (by simp [hd]), if_pos ⟨rfl, hd⟩]
      rw [continue_drawing_gesture]
      exact hd

/-- Witness for C10: with a brush gesture in flight, releasing over the
toolbar changes nothing, while releasing over the canvas ends the
gesture. -/
theorem release_outside_bounds_deferred_witness :
    drawingState.is_drawing = true ∧
    handle_drawing sampleOps drawingState (0, 0) false = drawingState ∧
    (handle_drawing sampleOps drawingState (400, 200) false).is_drawing = false :=
  ⟨rfl,
    (release_outside_bounds_deferred sampleOps drawingState rfl).1 (0, 0) (by decide),
    ((release_outside_bounds_deferred sampleOps drawingState rfl).2.1 (400, 200)
      (30, 100) (by decide)).1⟩

/-! ## Freehand interpolation (C4) -/

lemma le_foldl_max (l : List Nat) (a x : Nat) (h : x ∈ l ∨ x ≤ a) :
    x ≤ l.foldl max a := by
  induction l generalizing a with
  | nil =>
    rcases h with h | h
    · cases h
    · exact h
  | cons b t ih =>
    rcases h with h | h
    · rcases List.mem_cons.mp h with rfl | hm
      · exact ih (max a x) (Or.inr (le_max_right a x))
      · exact ih (max a b) (Or.inl hm)
    · exact ih (max a b) (Or.inr (le_trans h (le_max_left a b)))

lemma isqrt_pos {n : Nat} (h : 1 ≤ n) : 1 ≤ isqrt n := by
  unfold isqrt
  apply le_foldl_max
  left
  rw [List.mem_filter]
  constructor
  · rw [List.mem_range]
    omega
  · simpa using h

lemma distSq_eq_zero_iff (a b : Int × Int) : distSq a b = 0 ↔ a = b := by
  constructor
  · intro h
    unfold distSq at h
    rw [Int.toNat_eq_zero] at h
    have h1 := mul_self_nonneg (b.1 - a.1)
    have h2 := mul_self_nonneg (b.2 - a.2)
    have e1 : (b.1 - a.1) * (b.1 - a.1) = 0 := by linarith
    have e2 : (b.2 - a.2) * (b.2 - a.2) = 0 := by linarith
    have d1 : b.1 - a.1 = 0 := mul_self_eq_zero.mp e1
    have d2 : b.2 - a.2 = 0 := mul_self_eq_zero.mp e2
    have : a.1 = b.1 := by omega
    have : a.2 = b.2 := by omega
    ext <;> omega
  · intro h
    subst h
    simp [distSq]

/-- C4 counterexample: the interpolation does not use
`round(distance)` as its step count.  From `(0,0)` to `(3,0)` the
distance is exactly 3 and the code draws 4 circles, not 3; from
`(0,0)` to `(2,2)` the distance is `√8 ≈ 2.83`, which rounds to 3, yet
the code takes `int(√8) = 2` steps and draws 3 circles, not 4. -/
theorem lineSmooth_step_count_counterexample :
    (lineSmoothCircles (0, 0) (3, 0) 5).length ≠ roundSqrt (distSq (0, 0) (3, 0)) ∧
    (lineSmoothCircles (0, 0) (2, 2) 5).length ≠ roundSqrt (distSq (0, 0) (2, 2)) + 1 := by
  decide

/-- C4 (amended): the freehand interpolation draws filled circles of
radius `width / 2` at the truncated unit-parameter steps along the
segment: when the samples coincide it draws exactly one circle at the
sample; otherwise it draws `int(distance) + 1` circles (the step count
is the truncation `int(distance)`, not `round(distance)`), all of
radius `width / 2`, the first at the previous sample and the last at
the current sample. -/
theorem lineSmooth_circles_spec (start stop : Int × Int) (width : Nat) :
    (start = stop → lineSmoothCircles start stop width = [(start, width / 2)]) ∧
    (start ≠ stop →
      (lineSmoothCircles start stop width).length = isqrt (distSq start stop) + 1 ∧
      (∀ c ∈ lineSmoothCircles start stop width, c.2 = width / 2) ∧
      (lineSmoothCircles start stop width).head? = some (start, width / 2) ∧
      (lineSmoothCircles start stop width).getLast? = some (stop, width / 2)) := by
  constructor
  · intro h
    unfold lineSmoothCircles
    rw [if_pos h]
  · intro h
    have hdz : ¬ distSq start stop = 0 := fun hz => h ((distSq_eq_zero_iff _ _).1 hz)
    have hsteps : 1 ≤ isqrt (distSq start stop) := isqrt_pos (by omega)
    unfold lineSmoothCircles
    rw [if_neg h, if_neg hdz]
    dsimp only
    have hm : max (isqrt (distSq start stop)) 1 = isqrt (distSq start stop) := by omega
    rw [hm]
    set n := isqrt (distSq start stop) with hn
    have hne : (n : Int) ≠ 0 := by
      simp only [ne_eq, Int.natCast_eq_zero]
      omega
    refine ⟨?_, ?_, ?_, ?_⟩
    · simp
    · intro c hc
      rw [List.mem_map] at hc
      obtain ⟨i, _, rfl⟩ := hc
      rfl
    · rw [List.head?_map, List.range_succ_eq_map]
      dsimp only [List.head?, Option.map]
      have hx : (start.1 * (n : Int) + ((0 : Nat) : Int) * (stop.1 - start.1)).tdiv n = start.1 := by
        rw [Int.natCast_zero, zero_mul, add_zero, mul_comm, Int.mul_tdiv_cancel_left _ hne]
      have hy : (start.2 * (n : Int) + ((0 : Nat) : Int) * (stop.2 - start.2)).tdiv n = start.2 := by
        rw [Int.natCast_zero, zero_mul, add_zero, mul_comm, Int.mul_tdiv_cancel_left _ hne]
      rw [hx, hy]
    · rw [List.range_succ, List.map_append, List.map_singleton, List.getLast?_concat]
      have hx : (start.1 * (n : Int) + (n : Int) * (stop.1 - start.1)).tdiv n = stop.1 := by
        have : start.1 * (n : Int) + (n : Int) * (stop.1 - start.1) = (n : Int) * stop.1 := by ring
        rw [this, Int.mul_tdiv_cancel_left _ hne]
      have hy : (start.2 * (n : Int) + (n : Int) * (stop.2 - start.2)).tdiv n = stop.2 := by
        have : start.2 * (n : Int) + (n : Int) * (stop.2 - start.2) = (n : Int) * stop.2 := by ring
        rw [this, Int.mul_tdiv_cancel_left _ hne]
      rw [hx, hy]

/-- Witness for C4: a coincident pair draws one circle; from `(0,0)`
to `(1,0)` the circle count is `int(1) + 1`. -/
theorem lineSmooth_circles_spec_witness :
    lineSmoothCircles (0, 0) (0, 0) 5 = [((0, 0), 5 / 2)] ∧
    (lineSmoothCircles (0, 0) (1, 0) 5).length = isqrt (distSq (0, 0) (1, 0)) + 1 :=
  ⟨(lineSmooth_circles_spec (0, 0) (0, 0) 5).1 rfl,
    ((lineSmooth_circles_spec (0, 0) (1, 0) 5).2 (by decide)).1⟩

/-! ## Shape geometry (C5, C6) -/

lemma handle_release_eq_finish {α : Type} (ops : DrawOps α) (s : MPState α)
    (pos cp : Int × Int) (hd : s.is_drawing = true)
    (h : get_canvas_pos pos = some cp) :
    handle_drawing ops s pos false = finish_drawing ops s cp := by
  unfold handle_drawing
  rw [h]
  dsimp only
  rw [if_neg (by simp), if_neg (by simp), if_pos ⟨rfl, hd⟩]

/-- C5 counterexample: the triangle apex uses Python floor division,
not truncation toward zero.  With start `(0,0)` and end `(-5,3)` the
displacement is `w = -5`; the code computes apex x `-5 // 2 = -3`
while the claim's toward-zero division gives `-2`. -/
theorem triangle_division_counterexample :
    triangle_vertices (0, 0) (-5, 3) ≠ triangle_vertices_trunc (0, 0) (-5, 3) := by
  decide

/-- C5 (amended): the triangle tool's vertices are
`(start.x + w/2, start.y)`, `(start.x, start.y+h)`,
`(start.x+w, start.y+h)` where the division by 2 is floor division
(Python `//`, rounding toward negative infinity); it coincides with
truncation toward zero exactly when `w ≥ 0` (or `w` is even).  The
committed triangle is the polygon with exactly these vertices. -/
theorem triangle_vertices_floor_div {α : Type} (ops : DrawOps α)
    (s : MPState α) (pos sp cp : Int × Int)
    (ht : s.current_tool = Tool.triangle) (hd : s.is_drawing = true)
    (hsp : s.start_pos = some sp) (hcp : get_canvas_pos pos = some cp) :
    (handle_drawing ops s pos false).canvas =
      ops.polygon s.canvas s.current_color (triangle_vertices sp cp) s.brush_size ∧
    (∀ a b : Int × Int, 0 ≤ b.1 - a.1 →
      triangle_vertices a b = triangle_vertices_trunc a b) := by
  constructor
  · rw [handle_release_eq_finish ops s pos cp hd hcp, finish_drawing_canvas]
    unfold apply_shape
    dsimp only
    rw [ht, hsp]
  · intro a b hw
    obtain ⟨m, hm⟩ := Int.eq_ofNat_of_zero_le hw
    unfold triangle_vertices triangle_vertices_trunc
    dsimp only
    rw [hm, Int.fdiv_eq_tdiv (Int.natCast_nonneg m) (by omega)]

/-- Witness for C5: the triangle tool commits its polygon, and for a
nonnegative displacement the two division conventions agree. -/
theorem triangle_vertices_floor_div_witness :
    (handle_drawing sampleOps triangleState (400, 200) false).canvas =
      sampleOps.polygon triangleState.canvas triangleState.current_color
        (triangle_vertices (0, 0) (30, 100)) triangleState.brush_size ∧
    triangle_vertices (0, 0) (5, 3) = triangle_vertices_trunc (0, 0) (5, 3) :=
  ⟨(triangle_vertices_floor_div sampleOps triangleState (400, 200) (0, 0) (30, 100)
      rfl rfl rfl (by decide)).1,
    (triangle_vertices_floor_div sampleOps triangleState (400, 200) (0, 0) (30, 100)
      rfl rfl rfl (by decide)).2 (0, 0) (5, 3) (by decide)⟩

/-- C6: the star geometry produces exactly 10 vertices, vertex `i`
lying at angle `i·π/5 − π/2` from the center at the outer radius when
`i` is even and at the inner radius (outer/2) when odd — `draw_star`
rasterizes the polygon over exactly these vertices; the star tool
derives its radius as the absolute horizontal displacement divided by
2, and a non-positive radius draws nothing on the canvas. -/
theorem star_tool_spec {α : Type} (ops : DrawOps α) (s : MPState α)
    (pos sp cp : Int × Int) (ht : s.current_tool = Tool.star)
    (hd : s.is_drawing = true) (hsp : s.start_pos = some sp)
    (hcp : get_canvas_pos pos = some cp) :
    (∀ (surface : α) (color : Color) (c : Int × Int) (r w : Nat),
      draw_star ops surface c r color w =
        ops.polygon surface color (star_points_spec c r) w ∧
      (star_points c r).length = 10) ∧
    ((cp.1 - sp.1).natAbs / 2 = 0 →
      (handle_drawing ops s pos false).canvas = s.canvas) ∧
    (0 < (cp.1 - sp.1).natAbs / 2 →
      (handle_drawing ops s pos false).canvas =
        ops.star s.canvas s.current_color sp ((cp.1 - sp.1).natAbs / 2) s.brush_size) := by
  refine ⟨?_, ?_, ?_⟩
  · intro surface color c r w
    constructor
    · unfold draw_star
      rfl
    · simp [star_points]
  · intro h0
    rw [handle_release_eq_finish ops s pos cp hd hcp, finish_drawing_canvas]
    unfold apply_shape
    dsimp only
    rw [ht, hsp]
    dsimp only
    rw [if_neg (by omega)]
  · intro h0
    rw [handle_release_eq_finish ops s pos cp hd hcp, finish_drawing_canvas]
    unfold apply_shape
    dsimp only
    rw [ht, hsp]
    dsimp only
    rw [if_pos h0]

/-- Witness for C6: finishing a star gesture from `(0,0)` to `(30,100)`
draws a star of radius 15 at the start point. -/
theorem star_tool_spec_witness :
    (handle_drawing sampleOps starState (400, 200) false).canvas =
      sampleOps.star starState.canvas starState.current_color (0, 0) 15
        starState.brush_size :=
  (star_tool_spec sampleOps starState (400, 200) (0, 0) (30, 100)
    rfl rfl rfl (by decide)).2.2 (by decide)

/-! ## Save filename (C9) -/

lemma digit2_digits (n : Nat) : ∀ c ∈ digit2 n, c.isDigit = true := by
  have hd : ∀ y, y < 10 → (Nat.digitChar y).isDigit = true := by decide
  intro c hc
  rcases List.mem_cons.mp hc with rfl | hc2
  · exact hd _ (Nat.mod_lt _ (by decide))
  rcases List.mem_cons.mp hc2 with rfl | hc3
  · exact hd _ (Nat.mod_lt _ (by decide))
  exact absurd hc3 (List.not_mem_nil c)

lemma digit4_digits (n : Nat) : ∀ c ∈ digit4 n, c.isDigit = true := by
  have hd : ∀ y, y < 10 → (Nat.digitChar y).isDigit = true := by decide
  intro c hc
  rcases List.mem_cons.mp hc with rfl | hc2
  · exact hd _ (Nat.mod_lt _ (by decide))
  rcases List.mem_cons.mp hc2 with rfl | hc3
  · exact hd _ (Nat.mod_lt _ (by decide))
  rcases List.mem_cons.mp hc3 with rfl | hc4
  · exact hd _ (Nat.mod_lt _ (by decide))
  rcases List.mem_cons.mp hc4 with rfl | hc5
  · exact hd _ (Nat.mod_lt _ (by decide))
  exact absurd hc5 (List.not_mem_nil c)

/-- C9 counterexample: the saved filename does not match the claimed
pattern `mini_paint_masterpiece_<YYYYMMDDHHMMSS>.png` — the code
formats the timestamp as `%Y%m%d_%H%M%S`, a fifteen-character field
with an underscore between date and time, not fourteen contiguous
digits.  Concretely, 2024-01-02 03:04:05 yields
`mini_paint_masterpiece_20240102_030405.png`. -/
theorem save_filename_pattern_counterexample :
    ¬ ClaimFilePattern (save_basename ⟨2024, 1, 2, 3, 4, 5⟩) := by
  rintro ⟨ds, hlen, -, heq⟩
  have h1 : (save_basename ⟨2024, 1, 2, 3, 4, 5⟩).length = 42 := by decide
  have hp : ("mini_paint_masterpiece_").toList.length = 23 := by decide
  have hs : (".png").toList.length = 4 := by decide
  rw [heq, List.length_append, List.length_append, hp, hs, hlen] at h1
  omega

/-- C9 (amended): the canvas is saved under the dedicated `saves/`
output directory with a timestamp-derived filename matching the
pattern `mini_paint_masterpiece_<YYYYMMDD>_<HHMMSS>.png`: eight date
digits, an underscore, and six time digits. -/
theorem save_filename_code_pattern (t : Timestamp) :
    CodeFilePattern (save_basename t) ∧
    save_path t = ("saves/").toList ++ save_basename t := by
  constructor
  · refine ⟨digit4 t.year ++ digit2 t.month ++ digit2 t.day,
      digit2 t.hour ++ digit2 t.minute ++ digit2 t.second, ?_, ?_, ?_, ?_, ?_⟩
    · simp [digit4, digit2]
    · simp [digit2]
    · intro c hc
      rcases List.mem_append.mp hc with hc1 | hc2
      · rcases List.mem_append.mp hc1 with hc3 | hc4
        · exact digit4_digits t.year c hc3
        · exact digit2_digits t.month c hc4
      · exact digit2_digits t.day c hc2
    · intro c hc
      rcases List.mem_append.mp hc with hc1 | hc2
      · rcases List.mem_append.mp hc1 with hc3 | hc4
        · exact digit2_digits t.hour c hc3
        · exact digit2_digits t.minute c hc4
      · exact digit2_digits t.second c hc2
    · unfold save_basename timestamp_chars
      simp [List.append_assoc]
  · rfl

end MiniPaint
